import Mathlib

/-!
Shallow embedding of the gomod package manager core
(`src/cachi2/core/package_managers/gomod.py`) and proofs about it.

Conventions used throughout:
* Python `Optional[str]` becomes `Option String`; Python string truthiness
  (`if s:`) is modelled explicitly (`optStrTruthy`).
* Python exceptions become `Except`/`Option` results.
* Filesystem and git effects are passed in as explicit data (booleans for
  `vendor` dir existence, a `Commit`/`Tag` record for git objects, an oracle
  function for the recursive `_get_golang_version` call).
-/

namespace Gomod

/-- Python string truthiness for `Optional[str]` values: `None` and `""` are falsy. -/
def optStrTruthy : Option String → Bool
  | none => false
  | some s => s ≠ ""

/-- Model of Python `str.startswith(pre)`, phrased on character lists so that it
can be reasoned about by list induction. -/
def pyStartsWith (s pre : String) : Bool :=
  pre.toList.isPrefixOf s.toList

/-- Model of Python `str.removeprefix(pre)`: drop `pre` when it is a prefix,
otherwise return the string unchanged. -/
def removePre (s pre : String) : String :=
  if pyStartsWith s pre then s.drop pre.length else s

/-- Split a character list at every character satisfying `p` (the separators
are consumed; empty pieces are kept). -/
def splitByL (p : Char → Bool) : List Char → List (List Char)
  | [] => [[]]
  | c :: rest =>
    if p c then [] :: splitByL p rest
    else
      match splitByL p rest with
      | q :: qs => (c :: q) :: qs
      | [] => [[c]]

/-- Structural worker for `splitOnL`: the fuel dominates the number of scan
steps (one character is consumed per step), keeping the recursion structural
so that terms reduce definitionally. -/
def splitOnFuel (sep : List Char) : Nat → List Char → List (List Char)
  | _, [] => [[]]
  | 0, cs => [cs]
  | fuel + 1, c :: rest =>
    if sep.isPrefixOf (c :: rest) && !sep.isEmpty then
      [] :: splitOnFuel sep fuel ((c :: rest).drop sep.length)
    else
      match splitOnFuel sep fuel rest with
      | q :: qs => (c :: q) :: qs
      | [] => [[c]]

/-- Split a character list on every non-overlapping occurrence of the
(non-empty) separator `sep`, scanning left to right. -/
def splitOnL (sep cs : List Char) : List (List Char) :=
  splitOnFuel sep cs.length cs

/-- Structural worker for `replaceAllL`, fueled like `splitOnFuel`. -/
def replaceAllFuel (sep repl : List Char) : Nat → List Char → List Char
  | _, [] => []
  | 0, cs => cs
  | fuel + 1, c :: rest =>
    if sep.isPrefixOf (c :: rest) && !sep.isEmpty then
      repl ++ replaceAllFuel sep repl fuel ((c :: rest).drop sep.length)
    else c :: replaceAllFuel sep repl fuel rest

/-- Replace every non-overlapping occurrence of the (non-empty) pattern `sep`
by `repl`, scanning left to right. -/
def replaceAllL (sep repl cs : List Char) : List Char :=
  replaceAllFuel sep repl cs.length cs

/-- Model of Python `s.split(sep)` for a non-empty separator. -/
def pySplitOn (s sep : String) : List String :=
  if sep.toList = [] then [s]
  else (splitOnL sep.toList s.toList).map (fun cs => String.mk cs)

/-- Model of Python `s.replace(target, repl)` for a non-empty target. -/
def pyReplaceAll (s target repl : String) : String :=
  String.mk (replaceAllL target.toList repl.toList s.toList)

/-- Model of Python `str.endswith(suf)`. -/
def pyEndsWith (s suf : String) : Bool :=
  suf.toList.isSuffixOf s.toList

/-- A Go module as returned by the `-json` option of various go commands
(`ParsedModule` in the source; relevant fields only).  The source declares
`replace: Optional["ParsedModule"]`, i.e. the type is recursive, so it is
embedded as a nested inductive. -/
inductive ParsedModule : Type where
  | mk (path : String) (version : Option String) (main : Bool)
      (replace : Option ParsedModule) : ParsedModule

/-- Field accessor `ParsedModule.path`. -/
def ParsedModule.path : ParsedModule → String
  | .mk p _ _ _ => p

/-- Field accessor `ParsedModule.version`. -/
def ParsedModule.version : ParsedModule → Option String
  | .mk _ v _ _ => v

/-- Field accessor `ParsedModule.main`. -/
def ParsedModule.isMain : ParsedModule → Bool
  | .mk _ _ m _ => m

/-- Field accessor `ParsedModule.replace`. -/
def ParsedModule.replace : ParsedModule → Option ParsedModule
  | .mk _ _ _ r => r

/-- A Go package as returned by `go list -json` (`ParsedPackage` in the source). -/
structure ParsedPackage : Type where
  mk :: (import_path : String) (standard : Bool) (module : Option ParsedModule)

/-- Canonical module record (`Module` NamedTuple in the source). -/
structure Module : Type where
  name : String
  original_name : String
  real_path : String
  version : String
  main : Bool := false
deriving DecidableEq, Repr

/-- Canonical package record (`Package` NamedTuple in the source).  In the
source `relative_path` is `Optional[str]` but it is always constructed via
`str(...)`; the empty string plays the role of the falsy value. -/
structure Package : Type where
  relative_path : String
  module : Module
deriving DecidableEq, Repr

/-- Property `Package.name`: the package name based on the parent module's name
(`if self.relative_path: f"{self.module.name}/{self.relative_path}"`). -/
def Package.nameStr (p : Package) : String :=
  if p.relative_path ≠ "" then p.module.name ++ "/" ++ p.relative_path
  else p.module.name

/-- Property `Package.real_path`: the location of the package on the Internet,
which is also the `name` component of the package's purl. -/
def Package.realPath (p : Package) : String :=
  if p.relative_path ≠ "" then p.module.real_path ++ "/" ++ p.relative_path
  else p.module.real_path

/-- A Go standard library package (`StandardPackage` in the source). -/
structure StandardPackage : Type where
  name : String
deriving DecidableEq, Repr

/-- Result of `_create_package`, which returns `Union[Package, StandardPackage]`. -/
inductive ResolvedPackage : Type where
  | pkg (p : Package)
  | std (p : StandardPackage)
deriving DecidableEq, Repr

/-! Embedding of `os.path.normpath` (POSIX flavour), used by
`_resolve_path_for_local_replacement`.  `Path(...).as_posix()` is the identity
on an already-normalized POSIX path. -/

/-- One step of the component loop inside CPython's `posixpath.normpath`. -/
def normpathComp (initialSlashes : Nat) (acc : List String) (comp : String) : List String :=
  if comp = "" ∨ comp = "." then acc
  else if comp ≠ ".." ∨ (initialSlashes = 0 ∧ acc = []) ∨ acc.getLast? = some ".." then
    acc ++ [comp]
  else if acc ≠ [] then acc.dropLast
  else acc

/-- Model of Python `"/".join(comps)`. -/
def joinSlash : List String → String
  | [] => ""
  | [a] => a
  | a :: rest => a ++ "/" ++ joinSlash rest

/-- Model of CPython `posixpath.normpath`: collapse `.`, `..` and empty path
components, preserving up to two leading slashes. -/
def normpath (p : String) : String :=
  if p = "" then "." else
  let initialSlashes : Nat :=
    if pyStartsWith p "//" ∧ ¬ pyStartsWith p "///" then 2
    else if pyStartsWith p "/" then 1 else 0
  let comps := pySplitOn p "/"
  let newComps := comps.foldl (normpathComp initialSlashes) []
  let joined := String.mk (List.replicate initialSlashes '/') ++ joinSlash newComps
  if joined = "" then "." else joined

/-! Embedding of `_create_modules_from_parsed_data`.  The local-replacement
branch calls `_get_golang_version(module.path, main_module_dir.join_within_root(
replace.path))`, which inspects the git repository; that call is passed in as
an oracle `getGolangVersion` taking the module path and the replacement path.
(The join itself cannot fail here: `_resolve_gomod` has already run
`_validate_local_replacements` on these modules.) -/

/-- Embedding of the nested helper `_resolve_path_for_local_replacement`:
`os.path.normpath(f"{main_module.real_path}/{module.replace.path}")`. -/
def resolvePathForLocalReplacement (mainModule : Module) (replacePath : String) : String :=
  normpath (mainModule.real_path ++ "/" ++ replacePath)

/-- Embedding of the nested helper `_create_module` of
`_create_modules_from_parsed_data`.  Note `version = module.version or ""` in
the no-replacement branch (falsy versions become the empty string) and the
truthiness test `elif replace.version:` selecting the version-replacement
branch. -/
def createModule (getGolangVersion : String → String → String) (mainModule : Module)
    (module : ParsedModule) : Module :=
  match module.replace with
  | none =>
    -- name, original_name, real_path, version, main
    ⟨module.path, module.path, module.path, module.version.getD "", false⟩
  | some replace =>
    if optStrTruthy replace.version then
      -- module/name v1.0.0 => replace/name v1.2.3
      ⟨replace.path, module.path, replace.path, replace.version.getD "", false⟩
    else
      -- module/name v1.0.0 => ./local/path
      ⟨module.path, module.path, resolvePathForLocalReplacement mainModule replace.path,
        getGolangVersion module.path replace.path, false⟩

/-- Embedding of `_create_modules_from_parsed_data`. -/
def createModulesFromParsedData (getGolangVersion : String → String → String)
    (mainModule : Module) (parsedModules : List ParsedModule) : List Module :=
  parsedModules.map (createModule getGolangVersion mainModule)

/-! Embedding of `_should_vendor_deps`.  The filesystem state of the `vendor`
path under the app dir is passed as two booleans: `vendorExists` models
`vendor.exists()` and `vendorIsDir` models `vendor.is_dir()`.  The raised
`PackageRejected` is modelled as `Except.error` carrying the `reason` text. -/

/-- Reason text of the `PackageRejected` raised by `_should_vendor_deps`. -/
def gomodVendorStrictMsg : String :=
  "The \"gomod-vendor\" or \"gomod-vendor-check\" flag must be set when your repository has vendored dependencies."

/-- Embedding of `_should_vendor_deps`. -/
def shouldVendorDeps (flags : List String) (vendorExists vendorIsDir : Bool)
    (strict : Bool) : Except String (Bool × Bool) :=
  if "gomod-vendor-check" ∈ flags then .ok (true, !vendorExists)
  else if "gomod-vendor" ∈ flags then .ok (true, true)
  else if strict && vendorIsDir then .error gomodVendorStrictMsg
  else .ok (false, false)

/-! Embedding of `_deduplicate_resolved_modules`.  The Python dict with
`setdefault` keeps the first writer per key and `.values()` yields values in
insertion order; this is modelled by an accumulating list. -/

/-- Embedding of the nested `get_unique_key` of `_deduplicate_resolved_modules`
(note the truthiness test `elif replace.version:`). -/
def getUniqueKey (module : ParsedModule) : String × Option String :=
  match module.replace with
  | none => (module.path, module.version)
  | some replace =>
    if optStrTruthy replace.version then
      -- module/name v1.0.0 => replace/name v1.2.3
      (replace.path, replace.version)
    else
      -- module/name v1.0.0 => ./local/path
      (module.path, some replace.path)

/-- One `setdefault` step of the dedup loop: insert the module unless its key
is already present. -/
def dedupInsert (acc : List ParsedModule) (module : ParsedModule) : List ParsedModule :=
  if acc.any (fun m => decide (getUniqueKey m = getUniqueKey module)) then acc
  else acc ++ [module]

/-- The dedup loop over the chained input. -/
def dedupAll : List ParsedModule → List ParsedModule → List ParsedModule
  | acc, [] => acc
  | acc, module :: rest => dedupAll (dedupInsert acc module) rest

/-- Embedding of `_deduplicate_resolved_modules` on
`chain(package_modules, downloaded_modules)`. -/
def deduplicateResolvedModules (packageModules downloadedModules : List ParsedModule) :
    List ParsedModule :=
  dedupAll [] (packageModules ++ downloadedModules)

/-- The first module in a list carrying the given uniqueness key. -/
def firstWithKey (modules : List ParsedModule) (k : String × Option String) :
    Option ParsedModule :=
  modules.find? (fun m => decide (getUniqueKey m = k))

/-! Embedding of `_parse_vendor`.  The file content is passed as
`Option String` (`none` models a missing `vendor/modules.txt`).  The three
`fail_for_unexpected_format` call sites all raise `UnexpectedFormat`; they are
distinguished here by constructor so that theorems can name the offending
line. -/

/-- The `UnexpectedFormat` errors raised while parsing `vendor/modules.txt`,
one constructor per `fail_for_unexpected_format` call site. -/
inductive VendorParseError : Type where
  | unexpectedModuleLineFormat (line : String)
  | packageHasNoParentModule (line : String)
  | unexpectedFormat (line : String)
deriving DecidableEq, Repr

/-- Python whitespace characters recognized by `str.split()` (the ASCII ones;
`modules.txt` lines contain no others). -/
def isPySpace (c : Char) : Bool :=
  c = ' ' ∨ c = '\t' ∨ c = '\n' ∨ c = '\r' ∨ c = '\x0b' ∨ c = '\x0c'

/-- Model of Python `str.split()` with no arguments: split on whitespace runs,
discarding empty pieces. -/
def splitWs (s : String) : List String :=
  ((splitByL isPySpace s.toList).map (fun cs => String.mk cs)).filter (fun piece => piece ≠ "")

/-- Embedding of the nested `parse_module_line` of `_parse_vendor`: the five
documented line shapes, tried in source order. -/
def parseModuleLine (line : String) : Except VendorParseError ParsedModule :=
  match splitWs (removePre line "# ") with
  -- name version
  | [name, version] => .ok ⟨name, some version, false, none⟩
  -- name => path
  | [name, arrow, path] =>
    if arrow = "=>" then .ok ⟨name, none, false, some ⟨path, none, false, none⟩⟩
    else .error (.unexpectedModuleLineFormat line)
  | [name, p1, p2, p3] =>
    -- name => new_name new_version
    if p1 = "=>" then .ok ⟨name, none, false, some ⟨p2, some p3, false, none⟩⟩
    -- name version => path
    else if p2 = "=>" then .ok ⟨name, some p1, false, some ⟨p3, none, false, none⟩⟩
    else .error (.unexpectedModuleLineFormat line)
  -- name version => new_name new_version
  | [name, version, arrow, newName, newVersion] =>
    if arrow = "=>" then
      .ok ⟨name, some version, false, some ⟨newName, some newVersion, false, none⟩⟩
    else .error (.unexpectedModuleLineFormat line)
  | _ => .error (.unexpectedModuleLineFormat line)

/-- Whether a line matches one of the five documented module-line shapes of
§4.6 of the spec (stated on the whitespace-split fields of the line after the
`# ` marker is stripped). -/
def matchesDocumentedShape (line : String) : Bool :=
  match splitWs (removePre line "# ") with
  | [_, _] => true
  | [_, arrow, _] => arrow = "=>"
  | [_, p1, p2, _] => p1 = "=>" ∨ p2 = "=>"
  | [_, _, arrow, _, _] => arrow = "=>"
  | _ => false

/-- State of the `_parse_vendor` line loop: the `modules` and
`module_has_packages` lists. -/
structure VendorState : Type where
  modules : List ParsedModule
  flags : List Bool

/-- Model of `module_has_packages[-1] = True`.  (On an empty list the source
would raise `IndexError`; the loop never does this because a package line with
no parent module errors out first, and `modules` and `module_has_packages`
always have equal length.) -/
def setLastTrue (l : List Bool) : List Bool :=
  l.dropLast ++ [true]

/-- One iteration of the `_parse_vendor` line loop. -/
def vendorStep (st : VendorState) (line : String) : Except VendorParseError VendorState :=
  if pyStartsWith line "# " then  -- module line
    match parseModuleLine line with
    | .ok m => .ok ⟨st.modules ++ [m], st.flags ++ [false]⟩
    | .error e => .error e
  else if !pyStartsWith line "#" then  -- package line
    if st.modules.isEmpty then .error (.packageHasNoParentModule line)
    else .ok ⟨st.modules, setLastTrue st.flags⟩
  else if !pyStartsWith line "##" then
    .error (.unexpectedFormat line)
  else  -- marker line
    .ok st

/-- The `_parse_vendor` line loop. -/
def runVendorLines (st : VendorState) : List String → Except VendorParseError VendorState
  | [] => .ok st
  | line :: rest =>
    match vendorStep st line with
    | .ok st' => runVendorLines st' rest
    | .error e => .error e

/-- The final `zip`-and-filter of `_parse_vendor`: emit each module whose
`module_has_packages` flag is set. -/
def emitModules (st : VendorState) : List ParsedModule :=
  (st.modules.zip st.flags).filterMap (fun p => if p.2 then some p.1 else none)

/-- Parsing of the lines of an existing `vendor/modules.txt`. -/
def parseVendorLines (lines : List String) : Except VendorParseError (List ParsedModule) :=
  match runVendorLines ⟨[], []⟩ lines with
  | .ok st => .ok (emitModules st)
  | .error e => .error e

/-- Model of Python `str.splitlines()` restricted to `\n` / `\r\n` terminators
(the only ones `go mod vendor` emits). -/
def splitlines (s : String) : List String :=
  let ls := (pySplitOn s "\n").map (fun l => if pyEndsWith l "\r" then l.dropRight 1 else l)
  if s = "" then [] else if pyEndsWith s "\n" then ls.dropLast else ls

/-- Embedding of `_parse_vendor`: `none` content models a missing
`vendor/modules.txt`, for which the source returns `[]` without reading
anything. -/
def parseVendor (content : Option String) : Except VendorParseError (List ParsedModule) :=
  match content with
  | none => .ok []
  | some text => parseVendorLines (splitlines text)

/-- Structural worker for `moduleBlocks` (the fuel dominates the number of
steps, one line being consumed per step). -/
def moduleBlocksFuel : Nat → List String → List (String × List String)
  | _, [] => []
  | 0, _ => []
  | fuel + 1, line :: rest =>
    if pyStartsWith line "# " then
      (line, rest.takeWhile (fun l => !pyStartsWith l "# ")) ::
        moduleBlocksFuel fuel (rest.dropWhile (fun l => !pyStartsWith l "# "))
    else
      moduleBlocksFuel fuel rest

/-- Spec-side view of a vendor manifest: each module line paired with the block
of following lines up to the next module line (non-module lines before the
first module line are dropped; in any successful parse they are all markers). -/
def moduleBlocks (lines : List String) : List (String × List String) :=
  moduleBlocksFuel lines.length lines

/-- The modules a successful parse must emit, per the spec's words: exactly the
modules (in order) whose block contains at least one package line, a package
line being any line not starting with `#`. -/
def blocksOut (lines : List String) : List ParsedModule :=
  (moduleBlocks lines).filterMap (fun b =>
    match parseModuleLine b.1 with
    | .ok m => if b.2.any (fun l => !pyStartsWith l "#") then some m else none
    | .error _ => none)

/-! Embedding of the major-version handling at the top of
`_get_golang_version`: the regex match
`re.match(r"(?:.+/v)(?P<major_version>\d+)$", module_name)` and the
`major_versions_to_try` selection.  Go module names are ASCII, so `\d` is
modelled by `Char.isDigit`. -/

/-- Numeric value of a digit string, most significant digit first
(the value Python's `int()` gives on the captured group). -/
def digitsVal (ds : List Char) : Nat :=
  ds.foldl (fun n c => n * 10 + (c.toNat - '0'.toNat)) 0

/-- The regex `(?:.+/v)(?P<major_version>\d+)$` applied to the module name:
a non-empty run of trailing digits, immediately preceded by `/v`, with at
least one character before the `/v`.  Returns the value of the digit group. -/
def parseMajorFromChars (cs : List Char) : Option Nat :=
  let ds := (cs.reverse).takeWhile Char.isDigit
  let rest := (cs.reverse).dropWhile Char.isDigit
  if ds ≠ [] ∧ rest.take 2 = ['v', '/'] ∧ 3 ≤ rest.length then some (digitsVal ds.reverse)
  else none

/-- `module_major_version` as computed by `_get_golang_version`. -/
def parseModuleMajorVersion (name : String) : Option Nat :=
  parseMajorFromChars name.toList

/-- `major_versions_to_try` as computed by `_get_golang_version`.  Note the
Python truthiness test `if module_major_version:`, under which a parsed major
version of `0` falls through to the `(1, 0)` fallback. -/
def majorVersionsToTry (name : String) : List Nat :=
  match parseModuleMajorVersion name with
  | some n => if n ≠ 0 then [n] else [1, 0]
  | none => [1, 0]

/-! Embedding of the `semver` library pieces used by the reifier:
`semver.version.Version` with `parse`, `str()`, `bump_patch()` and the
`prerelease` attribute. -/

/-- A parsed semantic version (`semver.version.Version`). -/
structure SemVer : Type where
  major : Nat
  minor : Nat
  patch : Nat
  prerelease : Option String
  build : Option String
deriving DecidableEq, Repr

/-- Rendering of a `semver` Version by `str()`:
`major.minor.patch[-prerelease][+build]`. -/
def SemVer.toStr (v : SemVer) : String :=
  toString v.major ++ "." ++ toString v.minor ++ "." ++ toString v.patch
    ++ (match v.prerelease with | some p => "-" ++ p | none => "")
    ++ (match v.build with | some b => "+" ++ b | none => "")

/-- `semver` `bump_patch()`: raise the patch part, dropping prerelease and
build metadata. -/
def SemVer.bumpPatch (v : SemVer) : SemVer :=
  ⟨v.major, v.minor, v.patch + 1, none, none⟩

/-- A numeric identifier without leading zeros (`0|[1-9]\d*`). -/
def isNumNoLeadZero (s : String) : Bool :=
  s ≠ "" ∧ s.toList.all Char.isDigit ∧ (s = "0" ∨ !pyStartsWith s "0")

/-- A single prerelease identifier of the semver grammar:
`0|[1-9]\d*|\d*[a-zA-Z-][0-9a-zA-Z-]*`. -/
def isPreIdent (s : String) : Bool :=
  if s.toList.all Char.isDigit then isNumNoLeadZero s
  else s ≠ "" ∧ s.toList.all (fun c => c.isAlphanum ∨ c = '-')

/-- A single build identifier of the semver grammar: `[0-9a-zA-Z-]+`. -/
def isBuildIdent (s : String) : Bool :=
  s ≠ "" ∧ s.toList.all (fun c => c.isAlphanum ∨ c = '-')

/-- Model of `semver.version.Version.parse` (raising `ValueError` becomes
`none`): `major.minor.patch` core with no leading zeros, an optional
`-prerelease` (dot-separated identifiers; may itself contain `-`), and an
optional `+build` (dot-separated identifiers). -/
def parseSemVer (s : String) : Option SemVer := do
  let (core, build) ← (match pySplitOn s "+" with
    | [c] => some (c, (none : Option String))
    | [c, b] => some (c, some b)
    | _ => none)
  let (nums, pre) ← (match pySplitOn core "-" with
    | [n] => some (n, (none : Option String))
    | n :: rest => some (n, some (String.intercalate "-" rest))
    | [] => none)
  match pySplitOn nums "." with
  | [ma, mi, pa] =>
    if isNumNoLeadZero ma && isNumNoLeadZero mi && isNumNoLeadZero pa
        && (match pre with
            | some p => (pySplitOn p ".").all isPreIdent
            | none => true)
        && (match build with
            | some b => (pySplitOn b ".").all isBuildIdent
            | none => true) then
      some ⟨digitsVal ma.toList, digitsVal mi.toList, digitsVal pa.toList, pre, build⟩
    else none
  | _ => none

/-- Embedding of `_get_semantic_version_from_tag` up to the semver parse: the
string handed to `semver.version.Version.parse`.  Note the truthiness test
`if subpath:` and that Python `str.replace` replaces every occurrence. -/
def semVerStrFromTag (tagName : String) (subpath : Option String) : String :=
  match subpath with
  | some sp => if sp ≠ "" then pyReplaceAll tagName (sp ++ "/v") "" else tagName.drop 1
  | none => tagName.drop 1

/-- Embedding of `_get_semantic_version_from_tag` (a failing parse raises
`ValueError`, modelled as `none`). -/
def getSemanticVersionFromTag (tagName : String) (subpath : Option String) : Option SemVer :=
  parseSemVer (semVerStrFromTag tagName subpath)

/-! Embedding of the commit timestamp:
`datetime.utcfromtimestamp(commit.committed_date).strftime("%Y%m%d%H%M%S")`.
Civil-calendar conversion uses the standard days-to-civil algorithm.  Commit
timestamps are nonnegative seconds since the Unix epoch. -/

/-- Zero-pad a number to two digits (`strftime` `%m`/`%d`/`%H`/`%M`/`%S`). -/
def pad2 (n : Nat) : String :=
  if n < 10 then "0" ++ toString n else toString n

/-- Zero-pad a number to four digits (`strftime` `%Y`). -/
def pad4 (n : Nat) : String :=
  if n < 10 then "000" ++ toString n
  else if n < 100 then "00" ++ toString n
  else if n < 1000 then "0" ++ toString n
  else toString n

/-- Convert days since 1970-01-01 to a `(year, month, day)` civil date
(proleptic Gregorian calendar). -/
def civilFromDays (z : Nat) : Nat × Nat × Nat :=
  let z' := z + 719468
  let era := z' / 146097
  let doe := z' % 146097
  let yoe := (doe - doe / 1460 + doe / 36524 - doe / 146096) / 365
  let y := yoe + era * 400
  let doy := doe - (365 * yoe + yoe / 4 - yoe / 100)
  let mp := (5 * doy + 2) / 153
  let d := doy - (153 * mp + 2) / 5 + 1
  let m := if mp < 10 then mp + 3 else mp - 9
  (if m ≤ 2 then y + 1 else y, m, d)

/-- The `commit_timestamp` string of `_get_golang_pseudo_version`:
the committer UTC time formatted `YYYYMMDDHHMMSS`. -/
def formatTimestamp (t : Nat) : String :=
  let days := t / 86400
  let secs := t % 86400
  let c := civilFromDays days
  pad4 c.1 ++ pad2 c.2.1 ++ pad2 c.2.2 ++ pad2 (secs / 3600) ++ pad2 (secs % 3600 / 60)
    ++ pad2 (secs % 60)

/-- The data read off a `git.objects.Commit` by the reifier. -/
structure Commit : Type where
  committed_date : Nat
  hexsha : String
deriving DecidableEq, Repr

/-- The data read off a `git.Tag` by the reifier. -/
structure Tag : Type where
  name : String
deriving DecidableEq, Repr

/-- Embedding of `_get_golang_pseudo_version`.  The result is `none` exactly
when re-parsing the tag raises `ValueError` (which would propagate in the
source).  Note the Python `or` in `f'v{module_major_version or "0"}...'` and
the truthiness test `if tag_semantic_version.prerelease:`. -/
def getGolangPseudoVersion (commit : Commit) (tag : Option Tag)
    (moduleMajorVersion : Option Nat) (subpath : Option String) : Option String :=
  let commitTimestamp := formatTimestamp commit.committed_date
  let commitHash := commit.hexsha.take 12
  match tag with
  | none =>
    let majorStr := match moduleMajorVersion with
      | some n => if n ≠ 0 then toString n else "0"
      | none => "0"
    some ("v" ++ majorStr ++ ".0.0-" ++ commitTimestamp ++ "-" ++ commitHash)
  | some t => do
    let tagSemVer ← getSemanticVersionFromTag t.name subpath
    if optStrTruthy tagSemVer.prerelease then
      -- vX.Y.Z-pre.0.yyyymmddhhmmss-abcdefabcdef
      some ("v" ++ tagSemVer.toStr ++ "." ++ "0." ++ commitTimestamp ++ "-" ++ commitHash)
    else
      -- vX.Y.(Z+1)-0.yyyymmddhhmmss-abcdefabcdef
      some ("v" ++ tagSemVer.bumpPatch.toStr ++ "-" ++ "0." ++ commitTimestamp ++ "-" ++ commitHash)

/-! Embedding of `_validate_local_replacements` together with a model of the
rooted-path guard it invokes. -/

/-- Modelled from the spec: the rooted-path guard of §4.1
(`RootedPath.join_within_root`, implemented in `cachi2/core/rooted_path.py`,
which is not among the sources under analysis).  Joining a relative path into
the app directory resolves `.` and `..` components and fails (raising
`PathOutsideRoot`) exactly when the resolved path is not a descendant of the
repository root.  The app directory is given by its path components relative
to the repository root; symbolic links are not modelled. -/
def joinWithinRootOk (appRel : List String) (rel : String) : Bool :=
  ((pySplitOn rel "/").foldl
    (fun st comp =>
      match st with
      | none => none
      | some stack =>
        if comp = "" ∨ comp = "." then some stack
        else if comp = ".." then
          match stack with
          | [] => none
          | _ => some stack.dropLast
        else some (stack ++ [comp]))
    (some appRel)).isSome

/-- The list comprehension of `_validate_local_replacements`: the
`(module.path, module.replace.path)` pairs of modules with a local replacement
(a `replace` whose path starts with `.`). -/
def replacedLocalPaths (modules : List ParsedModule) : List (String × String) :=
  modules.filterMap (fun m =>
    match m.replace with
    | some r => if pyStartsWith r.path "." then some (m.path, r.path) else none
    | none => none)

/-- The checking loop of `_validate_local_replacements`: the first pair whose
path fails to join within the root is reported (the raised `PathOutsideRoot`
names the module and the replacement path). -/
def checkReplacedPaths (appRel : List String) :
    List (String × String) → Except (String × String) Unit
  | [] => .ok ()
  | (name, path) :: rest =>
    if joinWithinRootOk appRel path then checkReplacedPaths appRel rest
    else .error (name, path)

/-- Embedding of `_validate_local_replacements`. -/
def validateLocalReplacements (modules : List ParsedModule) (appRel : List String) :
    Except (String × String) Unit :=
  checkReplacedPaths appRel (replacedLocalPaths modules)

/-! Embedding of `_create_packages_from_parsed_data`. -/

/-- The components of a relative `pathlib.Path`: `/`-separated pieces with
empty and `.` components dropped (import paths are never absolute). -/
def pathParts (s : String) : List String :=
  (pySplitOn s "/").filter (fun comp => comp ≠ "" ∧ comp ≠ ".")

/-- Model of `pathlib.Path(p).is_relative_to(base)` for relative paths. -/
def pathIsRelativeTo (p base : String) : Bool :=
  (pathParts base).isPrefixOf (pathParts p)

/-- Model of `pathlib.Path(p).relative_to(base)` rendered by `str()` for
relative paths: the remaining components below `base`, or `"."` when there is
none; a `ValueError` (not a subpath) is `none`. -/
def pathRelativeTo (p base : String) : Option String :=
  let pp := pathParts p
  let bp := pathParts base
  if bp.isPrefixOf pp then
    let rest := pp.drop bp.length
    some (if rest = [] then "." else joinSlash rest)
  else none

/-- Embedding of the nested `_resolve_package_relative_path`:
`str(Path(package.import_path).relative_to(module.original_name)).removeprefix(".")`. -/
def resolvePackageRelativePath (pkg : ParsedPackage) (module : Module) : Option String :=
  (pathRelativeTo pkg.import_path module.original_name).map (fun s => removePre s ".")

/-- The `indexed_modules` dict lookup
(`{module.original_name: module for module in modules}`): a later module with
the same `original_name` overwrites an earlier one, so the lookup takes the
last match; a missing key (`KeyError`) is `none`. -/
def lookupModule (modules : List Module) (name : String) : Option Module :=
  (modules.filter (fun md => md.original_name = name)).getLast?

/-- The keys of the `indexed_modules` dict, in insertion order (the first
occurrence of each `original_name`). -/
def dictKeys (modules : List Module) : List String :=
  (modules.map Module.original_name).foldl
    (fun acc k => if k ∈ acc then acc else acc ++ [k]) []

/-- Python `max(xs, key=len, default=None)`: the first element of maximal
length, or `none` on an empty list. -/
def maxByLenFirst (xs : List String) : Option String :=
  xs.foldl
    (fun best s =>
      match best with
      | none => some s
      | some b => if s.length > b.length then some s else best)
    none

/-- Embedding of the nested `_find_parent_module_by_name`: the module whose
`original_name` is the longest dict key that `import_path` is relative to
(the source raises `RuntimeError` when there is none, modelled as `none`). -/
def findParentModuleByName (modules : List Module) (pkg : ParsedPackage) : Option Module :=
  match maxByLenFirst ((dictKeys modules).filter (fun k => pathIsRelativeTo pkg.import_path k)) with
  | some k => lookupModule modules k
  | none => none

/-- Embedding of the nested `_create_package` of
`_create_packages_from_parsed_data` (`none` models the propagation of
`KeyError`/`RuntimeError`/`ValueError`, none of which occur on toolchain
output). -/
def createPackage (modules : List Module) (pkg : ParsedPackage) : Option ResolvedPackage :=
  if pkg.standard then some (.std ⟨pkg.import_path⟩)
  else do
    let md ← (match pkg.module with
      | none => findParentModuleByName modules pkg
      | some pm => lookupModule modules pm.path)
    let rel ← resolvePackageRelativePath pkg md
    some (.pkg ⟨rel, md⟩)

/-- Embedding of `_create_packages_from_parsed_data`. -/
def createPackagesFromParsedData (modules : List Module)
    (parsedPackages : List ParsedPackage) : Option (List ResolvedPackage) :=
  parsedPackages.mapM (createPackage modules)

/-! Theorems. -/

/-- C10: if `vendor/modules.txt` does not exist under the module directory,
`_parse_vendor` returns an empty collection instead of raising an error, so
vendor-mode resolution proceeds with an empty downloaded-set. -/
theorem C10_missing_manifest_empty : parseVendor none = .ok [] := rfl

/-- C1 counterexample: `_create_modules_from_parsed_data` maps a
`ParsedModule` with no replace directive and no version field to a `Module`
whose `version` is the empty string (`version = module.version or ""`),
contradicting the claim that every produced `Module` has a non-empty version. -/
theorem C1_counterexample :
    (createModulesFromParsedData (fun _ _ => "v1.0.0")
        ⟨"example.com/a", "example.com/a", "github.com/u/r", "v1.0.0", true⟩
        [⟨"example.com/dep", none, false, none⟩]).map Module.version = [""] := rfl

/-- C1 (amended): module creation produces a non-empty version for every
`ParsedModule` that either carries a truthy version itself (no replace), or a
version replacement (whose version is truthy by branch selection), or a local
replacement for which the version reifier returns a non-empty string; a module
with no replace and a falsy version gets the empty version. -/
theorem C1_version_nonempty (getV : String → String → String) (mm : Module)
    (m : ParsedModule)
    (h1 : m.replace = none → optStrTruthy m.version = true)
    (h2 : ∀ r, m.replace = some r → optStrTruthy r.version = false →
      getV m.path r.path ≠ "") :
    (createModule getV mm m).version ≠ "" := by
  unfold createModule
  cases hr : m.replace with
  | none =>
    have := h1 hr
    cases hv : m.version with
    | none => rw [hv] at this; simp [optStrTruthy] at this
    | some s =>
      rw [hv] at this
      simpa [optStrTruthy, hv] using this
  | some r =>
    cases ht : optStrTruthy r.version with
    | true =>
      simp only [ht, if_true]
      cases hv : r.version with
      | none => rw [hv] at ht; simp [optStrTruthy] at ht
      | some s =>
        rw [hv] at ht
        simpa [optStrTruthy, hv] using ht
    | false =>
      simp only [ht, Bool.false_eq_true, if_false]
      exact h2 r hr ht

/-- C1 witness: a plain module with version `v1.2.3` yields a non-empty
resolved version. -/
theorem C1_version_nonempty_witness :
    (createModule (fun _ _ => "v1.0.0") ⟨"m", "m", "r", "v1", true⟩
      ⟨"example.com/dep", some "v1.2.3", false, none⟩).version ≠ "" :=
  C1_version_nonempty (fun _ _ => "v1.0.0") ⟨"m", "m", "r", "v1", true⟩
    ⟨"example.com/dep", some "v1.2.3", false, none⟩
    (fun _ => by decide) (fun r hr => nomatch hr)

/-- C6 counterexample: with both vendor flags present and a vendor directory
present, `_should_vendor_deps` returns `(true, false)` (the
`gomod-vendor-check` test runs first), not the `(true, true)` the claim's
`gomod-vendor` row demands. -/
theorem C6_counterexample :
    shouldVendorDeps ["gomod-vendor", "gomod-vendor-check"] true true false ≠
        Except.ok (true, true) ∧
    shouldVendorDeps ["gomod-vendor", "gomod-vendor-check"] true true false =
        Except.ok (true, false) := by
  constructor
  · intro h
    rw [show shouldVendorDeps ["gomod-vendor", "gomod-vendor-check"] true true false =
        Except.ok (true, false) from rfl] at h
    simp at h
  · rfl

/-- C6 (amended): the vendoring arbiter behaves per the table with
`gomod-vendor-check` taking precedence: flag `gomod-vendor-check` present
returns `(true, vendor-path-absent)`; otherwise flag `gomod-vendor` present
returns `(true, true)`; with neither flag, a vendor directory present under
strict mode raises `PackageRejected` with a message naming the required flags;
otherwise it returns `(false, false)`. -/
theorem C6_should_vendor_deps (flags : List String) (vendorExists vendorIsDir strict : Bool) :
    ("gomod-vendor-check" ∈ flags →
      shouldVendorDeps flags vendorExists vendorIsDir strict = .ok (true, !vendorExists))
  ∧ ("gomod-vendor-check" ∉ flags → "gomod-vendor" ∈ flags →
      shouldVendorDeps flags vendorExists vendorIsDir strict = .ok (true, true))
  ∧ ("gomod-vendor-check" ∉ flags → "gomod-vendor" ∉ flags →
      strict = true → vendorIsDir = true →
      shouldVendorDeps flags vendorExists vendorIsDir strict = .error gomodVendorStrictMsg ∧
        (pySplitOn gomodVendorStrictMsg "gomod-vendor").length = 3)
  ∧ ("gomod-vendor-check" ∉ flags → "gomod-vendor" ∉ flags →
      (strict && vendorIsDir) = false →
      shouldVendorDeps flags vendorExists vendorIsDir strict = .ok (false, false)) := by
  refine ⟨fun h1 => ?_, fun h1 h2 => ?_, fun h1 h2 h3 h4 => ⟨?_, by decide⟩,
    fun h1 h2 h3 => ?_⟩ <;>
    simp [shouldVendorDeps, h1, *]

/-- C6 witness: concrete rows of the amended table. -/
theorem C6_should_vendor_deps_witness :
    shouldVendorDeps ["gomod-vendor-check"] true true false = .ok (true, false) ∧
    shouldVendorDeps ["gomod-vendor"] false false false = .ok (true, true) ∧
    shouldVendorDeps [] false true true = .error gomodVendorStrictMsg ∧
    shouldVendorDeps [] true true false = .ok (false, false) :=
  ⟨(C6_should_vendor_deps ["gomod-vendor-check"] true true false).1 (by decide),
   (C6_should_vendor_deps ["gomod-vendor"] false false false).2.1 (by decide) (by decide),
   ((C6_should_vendor_deps [] false true true).2.2.1 (by decide) (by decide) rfl rfl).1,
   (C6_should_vendor_deps [] true true false).2.2.2 (by decide) (by decide) rfl⟩

/-- C2: pseudo-version synthesis.  With no pseudo-base tag the result is
`v<major or 0>.0.0-<ts>-<hash>`; with a pseudo-base whose parsed semantic
version has a prerelease component it is `v<base>.0.<ts>-<hash>` (dot
separator); with a pseudo-base and no prerelease it is
`v<base with patch incremented>-0.<ts>-<hash>` (dash separator); `<ts>` is the
commit's committer UTC time formatted `YYYYMMDDHHMMSS` and `<hash>` is the
first 12 hex characters of the commit id. -/
theorem C2_pseudo_version (c : Commit) (mmv : Option Nat) (sub : Option String) :
    (getGolangPseudoVersion c none mmv sub =
      some ("v" ++ (match mmv with
          | some n => if n ≠ 0 then toString n else "0"
          | none => "0") ++ ".0.0-" ++ formatTimestamp c.committed_date ++ "-"
        ++ c.hexsha.take 12))
  ∧ (∀ (t : Tag) (sv : SemVer), getSemanticVersionFromTag t.name sub = some sv →
      getGolangPseudoVersion c (some t) mmv sub =
        some (if optStrTruthy sv.prerelease then
            "v" ++ sv.toStr ++ "." ++ "0." ++ formatTimestamp c.committed_date ++ "-"
              ++ c.hexsha.take 12
          else
            "v" ++ (SemVer.mk sv.major sv.minor (sv.patch + 1) none none).toStr ++ "-"
              ++ "0." ++ formatTimestamp c.committed_date ++ "-" ++ c.hexsha.take 12)) := by
  constructor
  · rfl
  · intro t sv h
    simp only [getGolangPseudoVersion, h, Option.bind_eq_bind, Option.some_bind,
      SemVer.bumpPatch]
    cases hb : optStrTruthy sv.prerelease <;> simp [hb]

/-- C2 witness: the spec's scenario 3 (pseudo-version after prerelease tag
`v2.0.0-alpha`, commit `abcdef012345` committed at 2024-01-02T03:04:05Z). -/
theorem C2_pseudo_version_witness :
    getSemanticVersionFromTag "v2.0.0-alpha" none = some ⟨2, 0, 0, some "alpha", none⟩ ∧
    getGolangPseudoVersion ⟨1704164645, "abcdef012345"⟩ (some ⟨"v2.0.0-alpha"⟩) (some 2) none =
      some "v2.0.0-alpha.0.20240102030405-abcdef012345" := by
  have h : getSemanticVersionFromTag "v2.0.0-alpha" none = some ⟨2, 0, 0, some "alpha", none⟩ := by
    decide
  refine ⟨h, ?_⟩
  have h2 := (C2_pseudo_version ⟨1704164645, "abcdef012345"⟩ (some 2) none).2
    ⟨"v2.0.0-alpha"⟩ ⟨2, 0, 0, some "alpha", none⟩ h
  rw [h2]
  decide

/-- C9: in the vendor parser every line that does not start with `#` —
including an empty line — is a package line: an empty line before any module
line fails the parse with `UnexpectedFormat`, and an empty line after a module
line marks that module as having packages, so a module followed only by a
blank line is emitted. -/
theorem C9_blank_line_is_package_line :
    (∀ st : VendorState, st.modules = [] →
      vendorStep st "" = .error (.packageHasNoParentModule ""))
  ∧ (∀ st : VendorState, st.modules ≠ [] →
      vendorStep st "" = .ok ⟨st.modules, setLastTrue st.flags⟩)
  ∧ (∀ line m, pyStartsWith line "# " = true → parseModuleLine line = .ok m →
      parseVendorLines [line, ""] = .ok [m])
  ∧ parseVendorLines [""] = .error (.packageHasNoParentModule "") := by
  refine ⟨?_, ?_, ?_, rfl⟩
  · intro st h
    simp [vendorStep, h, pyStartsWith, List.isEmpty_iff]
  · intro st h
    simp [vendorStep, h, pyStartsWith, List.isEmpty_iff]
  · intro line m h1 h2
    simp only [parseVendorLines, runVendorLines, vendorStep, h1, if_true, h2]
    rfl

/-- C9 witness: a concrete module line followed by a blank line. -/
theorem C9_blank_line_is_package_line_witness :
    parseVendorLines ["# example.com/a v1.0.0", ""] =
      .ok [⟨"example.com/a", some "v1.0.0", false, none⟩] :=
  C9_blank_line_is_package_line.2.2.1 "# example.com/a v1.0.0"
    ⟨"example.com/a", some "v1.0.0", false, none⟩ (by decide) rfl

/-- Completeness of the trailing-`/vN` parse: a name of the shape
`pre ++ "/v" ++ digits` with non-empty `pre` and a non-empty all-digit tail
parses to the value of the digits. -/
theorem parseMajor_complete (pre ds : List Char) (hpre : pre ≠ []) (hds : ds ≠ [])
    (hdig : ∀ c ∈ ds, c.isDigit = true) :
    parseMajorFromChars (pre ++ '/' :: 'v' :: ds) = some (digitsVal ds) := by
  have hrev : (pre ++ '/' :: 'v' :: ds).reverse = ds.reverse ++ 'v' :: '/' :: pre.reverse := by
    simp
  have hdigrev : ∀ c ∈ ds.reverse, Char.isDigit c = true := by
    intro c hc
    exact hdig c (List.mem_reverse.mp hc)
  have htake : ((pre ++ '/' :: 'v' :: ds).reverse).takeWhile Char.isDigit = ds.reverse := by
    rw [hrev, List.takeWhile_append_of_pos hdigrev,
      List.takeWhile_cons_of_neg (by decide : ¬ Char.isDigit 'v' = true), List.append_nil]
  have hdrop : ((pre ++ '/' :: 'v' :: ds).reverse).dropWhile Char.isDigit
      = 'v' :: '/' :: pre.reverse := by
    rw [hrev, List.dropWhile_append_of_pos hdigrev,
      List.dropWhile_cons_of_neg (by decide : ¬ Char.isDigit 'v' = true)]
  simp only [parseMajorFromChars]
  rw [htake, hdrop]
  have hlen : 3 ≤ ('v' :: '/' :: pre.reverse).length := by
    have h1 : 1 ≤ pre.reverse.length := by
      cases h : pre.reverse with
      | nil => exact absurd (List.reverse_eq_nil_iff.mp h) hpre
      | cons c cs => simp
    simp only [List.length_cons]
    omega
  rw [if_pos ⟨by simpa using hds, rfl, hlen⟩, List.reverse_reverse]

/-- Soundness of the trailing-`/vN` parse: a successful parse exhibits the
decomposition `pre ++ "/v" ++ digits`. -/
theorem parseMajor_sound (cs : List Char) (n : Nat)
    (h : parseMajorFromChars cs = some n) :
    ∃ pre ds : List Char, cs = pre ++ '/' :: 'v' :: ds ∧ pre ≠ [] ∧ ds ≠ [] ∧
      (∀ c ∈ ds, c.isDigit = true) ∧ digitsVal ds = n := by
  simp only [parseMajorFromChars] at h
  split at h
  case isTrue hcond =>
    obtain ⟨hne, htk2, hlen⟩ := hcond
    injection h with hval
    set tw := (cs.reverse).takeWhile Char.isDigit with htw
    set dw := (cs.reverse).dropWhile Char.isDigit with hdwdef
    obtain ⟨c, rest, hshape⟩ : ∃ c rest, dw = 'v' :: '/' :: c :: rest := by
      cases hdm : dw with
      | nil => rw [hdm] at htk2; simp at htk2
      | cons a t1 =>
        cases t1 with
        | nil => rw [hdm] at htk2; simp at htk2
        | cons b t =>
          cases t with
          | nil => rw [hdm] at hlen; simp at hlen
          | cons c rest =>
            rw [hdm] at htk2
            simp only [List.take_succ_cons, List.take_zero, List.cons.injEq, and_true] at htk2
            exact ⟨c, rest, by rw [htk2.1, htk2.2]⟩
    have h1 : tw ++ dw = cs.reverse := List.takeWhile_append_dropWhile ..
    have h2 := congrArg List.reverse h1
    simp only [List.reverse_append, List.reverse_reverse] at h2
    rw [hshape] at h2
    refine ⟨(c :: rest).reverse, tw.reverse, ?_, by simp, by simpa using hne, ?_, hval⟩
    · rw [← h2]
      simp
    · intro ch hch
      rw [List.mem_reverse, htw] at hch
      exact List.mem_takeWhile_imp hch
  case isFalse => exact absurd h (by simp)

/-- C3 counterexample: the module name `example.com/a/v1` ends in `/v1`, which
the claim places in the `[1, 0]` fallback, but the code's regex accepts any
trailing `/vN` with nonzero `N`, giving the candidate list `[1]`. -/
theorem C3_counterexample :
    majorVersionsToTry "example.com/a/v1" = [1] ∧
    majorVersionsToTry "example.com/a/v1" ≠ [1, 0] := by
  constructor
  · decide
  · decide

/-- C3 (amended): the candidate major-version list is exactly `[N]` when the
module name ends with `/vN` for some `N ≥ 1` (digits parsed as decimal), and
is `[1, 0]` for every other name — including names with no `/vN` suffix and
names ending in `/v0`. -/
theorem C3_major_version_candidates (name : String) :
    (∀ pre ds : List Char, name.toList = pre ++ '/' :: 'v' :: ds → pre ≠ [] → ds ≠ [] →
      (∀ c ∈ ds, c.isDigit = true) → digitsVal ds ≠ 0 →
      majorVersionsToTry name = [digitsVal ds])
  ∧ ((¬ ∃ pre ds : List Char, name.toList = pre ++ '/' :: 'v' :: ds ∧ pre ≠ [] ∧ ds ≠ [] ∧
      (∀ c ∈ ds, c.isDigit = true) ∧ digitsVal ds ≠ 0) →
      majorVersionsToTry name = [1, 0]) := by
  constructor
  · intro pre ds heq hpre hds hdig hval
    unfold majorVersionsToTry parseModuleMajorVersion
    rw [heq, parseMajor_complete pre ds hpre hds hdig]
    simp [hval]
  · intro hnot
    unfold majorVersionsToTry parseModuleMajorVersion
    cases hp : parseMajorFromChars name.toList with
    | none => rfl
    | some n =>
      obtain ⟨pre, ds, h1, h2, h3, h4, h5⟩ := parseMajor_sound name.toList n hp
      have hn0 : n = 0 := by
        by_contra hne
        exact hnot ⟨pre, ds, h1, h2, h3, h4, h5 ▸ hne⟩
      simp [hn0]

/-- C3 witness: `example.com/a/v2` decomposes with digit tail `2` and yields
the candidate list `[2]`; `example.com/a` has no `/vN` suffix and yields
`[1, 0]`. -/
theorem C3_major_version_candidates_witness :
    majorVersionsToTry "example.com/a/v2" = [2] ∧
    majorVersionsToTry "example.com/a" = [1, 0] :=
  ⟨by
    have h := (C3_major_version_candidates "example.com/a/v2").1
      ("example.com/a".toList) ['2'] (by decide) (by decide) (by decide)
      (by decide) (by decide)
    rw [h]; decide,
   (C3_major_version_candidates "example.com/a").2 (by
    rintro ⟨pre, ds, h1, h2, h3, h4, h5⟩
    have : parseMajorFromChars "example.com/a".toList = some (digitsVal ds) :=
      h1 ▸ parseMajor_complete pre ds h2 h3 h4
    rw [show parseMajorFromChars "example.com/a".toList = none from by decide] at this
    exact absurd this (by simp))⟩

/-- Inserting never removes elements already accumulated. -/
theorem mem_dedupInsert_super (acc : List ParsedModule) (m a : ParsedModule)
    (h : a ∈ acc) : a ∈ dedupInsert acc m := by
  unfold dedupInsert
  split
  · exact h
  · exact List.mem_append_left _ h

/-- The dedup loop never removes elements already accumulated. -/
theorem mem_dedupAll_super (L : List ParsedModule) :
    ∀ acc a, a ∈ acc → a ∈ dedupAll acc L := by
  induction L with
  | nil => intro acc a h; exact h
  | cons x L ih =>
    intro acc a h
    exact ih (dedupInsert acc x) a (mem_dedupInsert_super acc x a h)

/-- Every key of the input is represented in the dedup result. -/
theorem dedupAll_covers (L : List ParsedModule) :
    ∀ acc m, m ∈ L → ∃ a ∈ dedupAll acc L, getUniqueKey a = getUniqueKey m := by
  induction L with
  | nil => intro acc m h; exact absurd h (List.not_mem_nil m)
  | cons x L ih =>
    intro acc m h
    rcases List.mem_cons.mp h with rfl | hm
    · have hx : ∃ a ∈ dedupInsert acc m, getUniqueKey a = getUniqueKey m := by
        by_cases hc : acc.any (fun b => decide (getUniqueKey b = getUniqueKey m)) = true
        · obtain ⟨b, hb, hbk⟩ := List.any_eq_true.mp hc
          exact ⟨b, by unfold dedupInsert; rw [if_pos hc]; exact hb, of_decide_eq_true hbk⟩
        · refine ⟨m, ?_, rfl⟩
          unfold dedupInsert
          rw [if_neg hc]
          exact List.mem_append_right _ (List.mem_singleton.mpr rfl)
      obtain ⟨a, ha, hak⟩ := hx
      exact ⟨a, mem_dedupAll_super L _ a ha, hak⟩
    · exact ih _ m hm

/-- The dedup loop preserves pairwise-distinct keys of the accumulator. -/
theorem dedupAll_pairwise (L : List ParsedModule) :
    ∀ acc, List.Pairwise (fun a b => getUniqueKey a ≠ getUniqueKey b) acc →
      List.Pairwise (fun a b => getUniqueKey a ≠ getUniqueKey b) (dedupAll acc L) := by
  induction L with
  | nil => intro acc h; exact h
  | cons x L ih =>
    intro acc h
    refine ih _ ?_
    unfold dedupInsert
    split
    · exact h
    · rename_i hc
      rw [List.pairwise_append]
      refine ⟨h, List.pairwise_singleton _ _, ?_⟩
      intro a ha b hb
      rw [List.mem_singleton.mp hb]
      have := List.any_eq_true.not.mp hc
      push_neg at this
      exact fun he => absurd (decide_eq_true he) (this a ha)

/-- Every element of the dedup result that was not already accumulated is the
first input element carrying its key, and its key is fresh relative to the
accumulator. -/
theorem dedupAll_firstOcc (L : List ParsedModule) :
    ∀ acc a, a ∈ dedupAll acc L →
      a ∈ acc ∨ (firstWithKey L (getUniqueKey a) = some a ∧
        ∀ b ∈ acc, getUniqueKey b ≠ getUniqueKey a) := by
  induction L with
  | nil => intro acc a h; exact Or.inl h
  | cons x L ih =>
    intro acc a h
    rcases ih (dedupInsert acc x) a h with hmem | ⟨hfirst, hall⟩
    · by_cases hc : acc.any (fun b => decide (getUniqueKey b = getUniqueKey x)) = true
      · rw [dedupInsert, if_pos hc] at hmem
        exact Or.inl hmem
      · rw [dedupInsert, if_neg hc] at hmem
        rcases List.mem_append.mp hmem with hacc | hax
        · exact Or.inl hacc
        · rw [List.mem_singleton.mp hax]
          refine Or.inr ⟨?_, ?_⟩
          · unfold firstWithKey
            rw [List.find?_cons_of_pos _ (by simp)]
          · intro b hb
            have := List.any_eq_true.not.mp hc
            push_neg at this
            exact fun he => absurd (decide_eq_true he) (this b hb)
    · have hxa : getUniqueKey x ≠ getUniqueKey a := by
        by_cases hc : acc.any (fun b => decide (getUniqueKey b = getUniqueKey x)) = true
        · obtain ⟨b, hb, hbk⟩ := List.any_eq_true.mp hc
          have hb' : b ∈ dedupInsert acc x := by rw [dedupInsert, if_pos hc]; exact hb
          exact of_decide_eq_true hbk ▸ hall b hb'
        · have hx' : x ∈ dedupInsert acc x := by
            rw [dedupInsert, if_neg hc]
            exact List.mem_append_right _ (List.mem_singleton.mpr rfl)
          exact hall x hx'
      refine Or.inr ⟨?_, ?_⟩
      · unfold firstWithKey at hfirst ⊢
        rw [List.find?_cons_of_neg _ (by simpa using hxa)]
        exact hfirst
      · intro b hb
        exact hall b (mem_dedupInsert_super acc x b hb)

/-- C4: the merged module list of `_deduplicate_resolved_modules` has pairwise
distinct uniqueness keys — `(replace.path, replace.version)` for a version
replacement, `(path, replace.path)` for a local-path replacement and
`(path, version)` otherwise — every merged module is the first module with its
key in the walk order package-modules-set then downloaded-set (first writer
wins), and every input key is represented in the merge. -/
theorem C4_dedup_unique_first_writer (pms dms : List ParsedModule) :
    List.Pairwise (fun a b => getUniqueKey a ≠ getUniqueKey b)
      (deduplicateResolvedModules pms dms)
  ∧ (∀ m' ∈ deduplicateResolvedModules pms dms,
      firstWithKey (pms ++ dms) (getUniqueKey m') = some m')
  ∧ (∀ m ∈ pms ++ dms, ∃ m' ∈ deduplicateResolvedModules pms dms,
      getUniqueKey m' = getUniqueKey m) := by
  refine ⟨dedupAll_pairwise (pms ++ dms) [] (List.Pairwise.nil), ?_, ?_⟩
  · intro m' hm'
    rcases dedupAll_firstOcc (pms ++ dms) [] m' hm' with h | ⟨h, _⟩
    · exact absurd h (List.not_mem_nil m')
    · exact h
  · intro m hm
    exact dedupAll_covers (pms ++ dms) [] m hm

/-- C4 witness: a version-replaced module from the package view and the plain
replacement target from the download view share the key
`("example.com/c", some "v1.1.0")`; the package view's copy wins. -/
theorem C4_dedup_unique_first_writer_witness :
    ∃ m' ∈ deduplicateResolvedModules
        [ParsedModule.mk "example.com/b" (some "v1.0.0") false
          (some (ParsedModule.mk "example.com/c" (some "v1.1.0") false none))]
        [ParsedModule.mk "example.com/c" (some "v1.1.0") false none],
      getUniqueKey m' = getUniqueKey (ParsedModule.mk "example.com/c" (some "v1.1.0") false none) :=
  (C4_dedup_unique_first_writer
      [ParsedModule.mk "example.com/b" (some "v1.0.0") false
        (some (ParsedModule.mk "example.com/c" (some "v1.1.0") false none))]
      [ParsedModule.mk "example.com/c" (some "v1.1.0") false none]).2.2
    (ParsedModule.mk "example.com/c" (some "v1.1.0") false none)
    (List.mem_append_right _ (List.mem_singleton.mpr rfl))

/-- A `/`-joined list headed by a non-empty component is non-empty. -/
theorem joinSlash_ne_empty (s : String) (rest : List String) (hs : s ≠ "") :
    joinSlash (s :: rest) ≠ "" := by
  cases rest with
  | nil => simpa [joinSlash] using hs
  | cons b t =>
    show s ++ "/" ++ joinSlash (b :: t) ≠ ""
    intro h
    have := congrArg String.data h
    simp [String.data_append] at this

/-- C5: a parsed module with a version replacement resolves to the Module
record `{name: replacement path, original_name: declared path, real_path:
replacement path, version: replacement version}`; and a parsed package
whose import path extends the declared path attaches to that module with
`relative_path` equal to the portion below `original_name` and with the purl
name (`Package.real_path`) built from the module's `real_path`. -/
theorem C5_version_replacement :
    (∀ (getV : String → String → String) (mm : Module) (m r : ParsedModule) (v : String),
      m.replace = some r → r.version = some v → v ≠ "" →
      createModule getV mm m = ⟨r.path, m.path, r.path, v, false⟩)
  ∧ (∀ (modules : List Module) (M : Module) (pkg : ParsedPackage) (pm : ParsedModule)
      (rest : List String),
      pkg.standard = false → pkg.module = some pm →
      lookupModule modules pm.path = some M →
      pathParts pkg.import_path = pathParts M.original_name ++ rest → rest ≠ [] →
      (∀ s ∈ rest, s ≠ "") →
      pyStartsWith (joinSlash rest) "." = false →
      createPackage modules pkg = some (.pkg ⟨joinSlash rest, M⟩) ∧
        Package.realPath ⟨joinSlash rest, M⟩ = M.real_path ++ "/" ++ joinSlash rest) := by
  constructor
  · intro getV mm m r v hrep hv hvne
    unfold createModule
    simp only [hrep]
    rw [hv]
    simp [optStrTruthy, hvne]
  · intro modules M pkg pm rest hstd hpm hlook hparts hne hnes hdot
    have hrel : resolvePackageRelativePath pkg M = some (joinSlash rest) := by
      unfold resolvePackageRelativePath pathRelativeTo
      rw [hparts, if_pos (List.isPrefixOf_iff_prefix.mpr (List.prefix_append _ _)),
        List.drop_left]
      show Option.map (fun s => removePre s ".")
          (some (if rest = [] then "." else joinSlash rest)) = some (joinSlash rest)
      rw [if_neg hne]
      simp [removePre, hdot]
    constructor
    · unfold createPackage
      rw [hstd, hpm]
      simp only [Bool.false_eq_true, if_false, Option.bind_eq_bind]
      rw [hlook]
      simp only [Option.some_bind]
      rw [hrel]
      rfl
    · obtain ⟨s, t, rfl⟩ : ∃ s t, rest = s :: t := by
        cases rest with
        | nil => exact absurd rfl hne
        | cons s t => exact ⟨s, t, rfl⟩
      unfold Package.realPath
      rw [if_pos (by simpa using joinSlash_ne_empty s t (hnes s (List.mem_cons_self s t)))]

/-- C5 witness: the spec's scenario 4 — `replace example.com/b v1.0.0 =>
example.com/c v1.1.0` with package `example.com/b/sub`. -/
theorem C5_version_replacement_witness :
    createModule (fun _ _ => "v") ⟨"m", "m", "r", "v1", true⟩
        (ParsedModule.mk "example.com/b" (some "v1.0.0") false
          (some (ParsedModule.mk "example.com/c" (some "v1.1.0") false none)))
      = ⟨"example.com/c", "example.com/b", "example.com/c", "v1.1.0", false⟩ ∧
    createPackage [⟨"example.com/c", "example.com/b", "example.com/c", "v1.1.0", false⟩]
        ⟨"example.com/b/sub", false, some (ParsedModule.mk "example.com/b" (some "v1.0.0") false none)⟩
      = some (.pkg ⟨"sub", ⟨"example.com/c", "example.com/b", "example.com/c", "v1.1.0", false⟩⟩) ∧
    Package.realPath ⟨"sub", ⟨"example.com/c", "example.com/b", "example.com/c", "v1.1.0", false⟩⟩
      = "example.com/c/sub" := by
  have h2 := C5_version_replacement.2
    [⟨"example.com/c", "example.com/b", "example.com/c", "v1.1.0", false⟩]
    ⟨"example.com/c", "example.com/b", "example.com/c", "v1.1.0", false⟩
    ⟨"example.com/b/sub", false, some (ParsedModule.mk "example.com/b" (some "v1.0.0") false none)⟩
    (ParsedModule.mk "example.com/b" (some "v1.0.0") false none) ["sub"]
    rfl rfl (by decide) (by decide) (by decide) (by decide) (by decide)
  refine ⟨C5_version_replacement.1 (fun _ _ => "v") ⟨"m", "m", "r", "v1", true⟩
    (ParsedModule.mk "example.com/b" (some "v1.0.0") false
      (some (ParsedModule.mk "example.com/c" (some "v1.1.0") false none)))
    (ParsedModule.mk "example.com/c" (some "v1.1.0") false none) "v1.1.0"
    rfl rfl (by decide), ?_, ?_⟩
  · exact h2.1.trans (by decide)
  · exact h2.2.trans (by decide)

/-- The checking loop of `_validate_local_replacements` succeeds exactly when
every collected replacement path joins within the root. -/
theorem checkReplacedPaths_ok_iff (appRel : List String) (ps : List (String × String)) :
    checkReplacedPaths appRel ps = .ok () ↔
      ∀ p ∈ ps, joinWithinRootOk appRel p.2 = true := by
  induction ps with
  | nil => simp [checkReplacedPaths]
  | cons hd tl ih =>
    obtain ⟨name, path⟩ := hd
    unfold checkReplacedPaths
    by_cases hj : joinWithinRootOk appRel path = true
    · rw [if_pos hj, ih]
      constructor
      · intro h p hp
        rcases List.mem_cons.mp hp with rfl | hp'
        · exact hj
        · exact h p hp'
      · intro h p hp
        exact h p (List.mem_cons_of_mem _ hp)
    · rw [if_neg hj]
      constructor
      · intro h
        exact absurd h (by simp)
      · intro h
        exact absurd (h (name, path) (List.mem_cons_self _ _)) hj

/-- An error of the checking loop names a collected pair whose path fails to
join within the root. -/
theorem checkReplacedPaths_error (appRel : List String) (ps : List (String × String))
    (name path : String) (h : checkReplacedPaths appRel ps = .error (name, path)) :
    (name, path) ∈ ps ∧ joinWithinRootOk appRel path = false := by
  induction ps with
  | nil => exact absurd h (by simp [checkReplacedPaths])
  | cons hd tl ih =>
    obtain ⟨n, p⟩ := hd
    unfold checkReplacedPaths at h
    by_cases hj : joinWithinRootOk appRel p = true
    · rw [if_pos hj] at h
      obtain ⟨hm, hf⟩ := ih h
      exact ⟨List.mem_cons_of_mem _ hm, hf⟩
    · rw [if_neg hj] at h
      injection h with h'
      injection h' with h1 h2
      subst h1
      subst h2
      exact ⟨List.mem_cons_self _ _, by simpa using hj⟩

/-- C8: local-replacement validation raises `PathOutsideRoot` — naming the
offending module and its replacement path — exactly when some module's
`replace.path` begins with `.` and joining it into the app root resolves
outside the repository root; replacements whose paths do not begin with `.`
are never checked, and when every local replacement joins within the root the
function returns without error. -/
theorem C8_validate_local_replacements (modules : List ParsedModule) (appRel : List String) :
    (validateLocalReplacements modules appRel = .ok () ↔
      ∀ m ∈ modules, ∀ r, m.replace = some r → pyStartsWith r.path "." = true →
        joinWithinRootOk appRel r.path = true)
  ∧ (∀ name path, validateLocalReplacements modules appRel = .error (name, path) →
      ∃ m ∈ modules, m.path = name ∧ ∃ r, m.replace = some r ∧ r.path = path ∧
        pyStartsWith path "." = true ∧ joinWithinRootOk appRel path = false) := by
  constructor
  · rw [validateLocalReplacements, checkReplacedPaths_ok_iff]
    constructor
    · intro h m hm r hrep hdot
      refine h (m.path, r.path) ?_
      rw [replacedLocalPaths, List.mem_filterMap]
      exact ⟨m, hm, by simp only [hrep]; rw [if_pos hdot]⟩
    · intro h p hp
      rw [replacedLocalPaths, List.mem_filterMap] at hp
      obtain ⟨m, hm, hf⟩ := hp
      cases hrep : m.replace with
      | none => simp only [hrep] at hf; exact absurd hf (by simp)
      | some r =>
        simp only [hrep] at hf
        by_cases hdot : pyStartsWith r.path "." = true
        · rw [if_pos hdot] at hf
          injection hf with hf'
          rw [← hf']
          exact h m hm r hrep hdot
        · rw [if_neg hdot] at hf
          exact absurd hf (by simp)
  · intro name path herr
    rw [validateLocalReplacements] at herr
    obtain ⟨hm, hfail⟩ := checkReplacedPaths_error appRel _ name path herr
    rw [replacedLocalPaths, List.mem_filterMap] at hm
    obtain ⟨m, hmem, hf⟩ := hm
    cases hrep : m.replace with
    | none => simp only [hrep] at hf; exact absurd hf (by simp)
    | some r =>
      simp only [hrep] at hf
      by_cases hdot : pyStartsWith r.path "." = true
      · rw [if_pos hdot] at hf
        injection hf with hf'
        injection hf' with hn hp
        exact ⟨m, hmem, hn, r, hrep, hp, hp ▸ hdot, hfail⟩
      · rw [if_neg hdot] at hf
        exact absurd hf (by simp)

/-- C8 witness: the spec's scenario 5 — `replace example.com/b => ../outside`
at the repository root fails naming `example.com/b` and `../outside`. -/
theorem C8_validate_local_replacements_witness :
    ∃ m ∈ [ParsedModule.mk "example.com/b" none false
        (some (ParsedModule.mk "../outside" none false none))],
      m.path = "example.com/b" ∧ ∃ r, m.replace = some r ∧ r.path = "../outside" ∧
        pyStartsWith "../outside" "." = true ∧ joinWithinRootOk [] "../outside" = false :=
  (C8_validate_local_replacements
      [ParsedModule.mk "example.com/b" none false
        (some (ParsedModule.mk "../outside" none false none))] []).2
    "example.com/b" "../outside" rfl

/-- A line starting with `##` starts with `#` but not with `# `. -/
theorem pyStartsWith_of_marker (l : String) (h : pyStartsWith l "##" = true) :
    pyStartsWith l "#" = true ∧ pyStartsWith l "# " = false := by
  unfold pyStartsWith at h ⊢
  rw [List.isPrefixOf_iff_prefix] at h
  obtain ⟨t, ht⟩ := h
  have hl : l.toList = '#' :: '#' :: t := by
    rw [← ht]
    rfl
  constructor
  · rw [List.isPrefixOf_iff_prefix, hl]
    exact ⟨'#' :: t, rfl⟩
  · rw [hl]
    show (['#', ' '].isPrefixOf ('#' :: '#' :: t)) = false
    rw [List.isPrefixOf_cons₂, List.isPrefixOf_cons₂]
    simp [show ((' ' == '#') = false) from rfl]

/-- Fuel irrelevance for `moduleBlocksFuel`: any fuel at least the number of
lines computes `moduleBlocks`. -/
theorem moduleBlocksFuel_congr (n : Nat) :
    ∀ lines : List String, lines.length ≤ n → moduleBlocksFuel n lines = moduleBlocks lines := by
  induction n using Nat.strong_induction_on with
  | _ n ih =>
    intro lines hlen
    cases lines with
    | nil =>
      cases n with
      | zero => rfl
      | succ k => rfl
    | cons line rest =>
      cases n with
      | zero => simp at hlen
      | succ k =>
        have hr : rest.length ≤ k := by simpa using hlen
        have hblocks : moduleBlocks (line :: rest)
            = moduleBlocksFuel (rest.length + 1) (line :: rest) := rfl
        by_cases hm : pyStartsWith line "# " = true
        · rw [hblocks]
          simp only [moduleBlocksFuel, hm, if_true]
          refine congrArg _ ?_
          rw [ih k (Nat.lt_succ_self k) _
              (Nat.le_trans (List.dropWhile_sublist _).length_le hr),
            ih rest.length (Nat.lt_succ_of_le hr) _ (List.dropWhile_sublist _).length_le]
        · rw [hblocks]
          have hm' : pyStartsWith line "# " = false := by simpa using hm
          simp only [moduleBlocksFuel, hm', Bool.false_eq_true, if_false]
          rw [ih k (Nat.lt_succ_self k) _ hr,
            ih rest.length (Nat.lt_succ_of_le hr) _ (Nat.le_refl _)]

/-- Unfolding `moduleBlocks` at a module line. -/
theorem moduleBlocks_cons_module (l : String) (ls : List String)
    (h : pyStartsWith l "# " = true) :
    moduleBlocks (l :: ls) = (l, ls.takeWhile (fun x => !pyStartsWith x "# ")) ::
      moduleBlocks (ls.dropWhile (fun x => !pyStartsWith x "# ")) := by
  show moduleBlocksFuel (ls.length + 1) (l :: ls) = _
  simp only [moduleBlocksFuel, h, if_true]
  rw [moduleBlocksFuel_congr ls.length _ (List.dropWhile_sublist _).length_le]

/-- Unfolding `moduleBlocks` at a non-module line. -/
theorem moduleBlocks_cons_other (l : String) (ls : List String)
    (h : pyStartsWith l "# " = false) :
    moduleBlocks (l :: ls) = moduleBlocks ls := by
  show moduleBlocksFuel (ls.length + 1) (l :: ls) = _
  simp only [moduleBlocksFuel, h, if_false]
  rfl

/-- `moduleBlocks` ignores a leading run of non-module lines. -/
theorem moduleBlocks_append_other (g rest : List String)
    (h : ∀ l ∈ g, pyStartsWith l "# " = false) :
    moduleBlocks (g ++ rest) = moduleBlocks rest := by
  induction g with
  | nil => rfl
  | cons l g' ih =>
    rw [List.cons_append, moduleBlocks_cons_other l _ (h l (List.mem_cons_self _ _))]
    exact ih (fun x hx => h x (List.mem_cons_of_mem _ hx))

/-- Appending line lists runs the vendor loop in sequence. -/
theorem runVendorLines_append (xs ys : List String) :
    ∀ st, runVendorLines st (xs ++ ys) =
      match runVendorLines st xs with
      | .ok st' => runVendorLines st' ys
      | .error e => .error e := by
  induction xs with
  | nil => intro st; rfl
  | cons x xs ih =>
    intro st
    show (match vendorStep st x with
      | .ok st' => runVendorLines st' (xs ++ ys)
      | .error e => .error e) =
      match (match vendorStep st x with
        | .ok st' => runVendorLines st' xs
        | .error e => .error e) with
      | .ok st' => runVendorLines st' ys
      | .error e => .error e
    cases hstep : vendorStep st x with
    | ok st' => simpa using ih st'
    | error e => rfl

/-- Setting the last flag twice is the same as setting it once. -/
theorem setLastTrue_idem (fs : List Bool) : setLastTrue (setLastTrue fs) = setLastTrue fs := by
  unfold setLastTrue
  rw [List.dropLast_concat]

/-- The head of a non-empty `dropWhile` result falsifies the predicate. -/
theorem dropWhile_head_false {α : Type} (p : α → Bool) :
    ∀ (l : List α) (x : α) (xs : List α), l.dropWhile p = x :: xs → p x = false := by
  intro l
  induction l with
  | nil => intro x xs h; exact absurd h (by simp)
  | cons a t ih =>
    intro x xs h
    rw [List.dropWhile_cons] at h
    split at h
    · exact ih x xs h
    · rename_i hpa
      injection h with h1 _
      rw [← h1]
      exact Bool.eq_false_iff.mpr hpa

/-- A module line parses successfully exactly when its fields match one of the
five documented shapes; on a mismatch the error names the line. -/
theorem parseModuleLine_shape (l : String) :
    (matchesDocumentedShape l = false →
      parseModuleLine l = .error (.unexpectedModuleLineFormat l)) ∧
    (matchesDocumentedShape l = true → ∃ m, parseModuleLine l = .ok m) := by
  unfold matchesDocumentedShape parseModuleLine
  generalize splitWs (removePre l "# ") = parts
  rcases parts with _ | ⟨a, _ | ⟨b, _ | ⟨c, _ | ⟨d, _ | ⟨e, _ | ⟨f, t⟩⟩⟩⟩⟩⟩ <;>
    dsimp only
  · exact ⟨fun _ => rfl, fun h => by simp at h⟩
  · exact ⟨fun _ => rfl, fun h => by simp at h⟩
  · exact ⟨fun h => by simp at h, fun _ => ⟨_, rfl⟩⟩
  · constructor
    · intro h
      rw [if_neg (of_decide_eq_false h)]
    · intro h
      rw [if_pos (of_decide_eq_true h)]
      exact ⟨_, rfl⟩
  · constructor
    · intro h
      have h' := of_decide_eq_false h
      push_neg at h'
      rw [if_neg h'.1, if_neg h'.2]
    · intro h
      rcases of_decide_eq_true h with h' | h'
      · rw [if_pos h']
        exact ⟨_, rfl⟩
      · by_cases hb : b = "=>"
        · rw [if_pos hb]
          exact ⟨_, rfl⟩
        · rw [if_neg hb, if_pos h']
          exact ⟨_, rfl⟩
  · constructor
    · intro h
      rw [if_neg (of_decide_eq_false h)]
    · intro h
      rw [if_pos (of_decide_eq_true h)]
      exact ⟨_, rfl⟩
  · exact ⟨fun _ => rfl, fun h => by simp at h⟩

/-- Running the vendor loop over a group of non-module lines keeps the module
list, sets the last has-packages flag exactly when the group contains a
package line, and can only have consumed a package line when a module was
already open. -/
theorem runVendorLines_group (g : List String) :
    ∀ st st', (∀ l ∈ g, pyStartsWith l "# " = false) →
      runVendorLines st g = .ok st' →
      st'.modules = st.modules ∧
      st'.flags = (if g.any (fun l => !pyStartsWith l "#") then setLastTrue st.flags
        else st.flags) ∧
      (g.any (fun l => !pyStartsWith l "#") = true → st.modules ≠ []) := by
  induction g with
  | nil =>
    intro st st' _ h
    injection h with h'
    subst h'
    simp
  | cons l g' ih =>
    intro st st' hall hrun
    have hmod : pyStartsWith l "# " = false := hall l (List.mem_cons_self _ _)
    have hall' : ∀ x ∈ g', pyStartsWith x "# " = false :=
      fun x hx => hall x (List.mem_cons_of_mem _ hx)
    rw [show runVendorLines st (l :: g') = (match vendorStep st l with
      | .ok st2 => runVendorLines st2 g'
      | .error e => .error e) from rfl] at hrun
    by_cases hpk : pyStartsWith l "#" = true
    · by_cases hmk : pyStartsWith l "##" = true
      · have hstep : vendorStep st l = .ok st := by
          simp [vendorStep, hmod, hpk, hmk]
        rw [hstep] at hrun
        obtain ⟨h1, h2, h3⟩ := ih st st' hall' hrun
        have hpkl : (!pyStartsWith l "#") = false := by rw [hpk]; rfl
        refine ⟨h1, ?_, ?_⟩
        · rw [List.any_cons, hpkl, Bool.false_or]
          exact h2
        · intro hany
          rw [List.any_cons, hpkl, Bool.false_or] at hany
          exact h3 hany
      · have hstep : vendorStep st l = .error (.unexpectedFormat l) := by
          simp [vendorStep, hmod, hpk, hmk]
        rw [hstep] at hrun
        exact absurd hrun (by simp)
    · have hpk' : pyStartsWith l "#" = false := by simpa using hpk
      by_cases hemp : st.modules.isEmpty = true
      · have hstep : vendorStep st l = .error (.packageHasNoParentModule l) := by
          simp [vendorStep, hmod, hpk', hemp]
        rw [hstep] at hrun
        exact absurd hrun (by simp)
      · have hstep : vendorStep st l = .ok ⟨st.modules, setLastTrue st.flags⟩ := by
          simp [vendorStep, hmod, hpk', hemp]
        rw [hstep] at hrun
        obtain ⟨h1, h2, h3⟩ := ih _ st' hall' hrun
        have hpkl : (!pyStartsWith l "#") = true := by rw [hpk']; rfl
        have hmne : st.modules ≠ [] := by
          intro h0
          exact hemp (List.isEmpty_iff.mpr h0)
        refine ⟨h1, ?_, fun _ => hmne⟩
        rw [List.any_cons, hpkl, Bool.true_or, if_pos rfl, h2]
        cases hany' : g'.any (fun l => !pyStartsWith l "#") with
        | true => rw [if_pos rfl]; exact setLastTrue_idem st.flags
        | false => rw [if_neg (by simp)]

/-- Emission distributes over appending one module and one flag. -/
theorem emitModules_append (ms : List ParsedModule) (fs : List Bool) (m : ParsedModule)
    (b : Bool) (hlen : ms.length = fs.length) :
    emitModules ⟨ms ++ [m], fs ++ [b]⟩ =
      emitModules ⟨ms, fs⟩ ++ (if b then [m] else []) := by
  unfold emitModules
  rw [show (VendorState.mk (ms ++ [m]) (fs ++ [b])).modules = ms ++ [m] from rfl,
    show (VendorState.mk (ms ++ [m]) (fs ++ [b])).flags = fs ++ [b] from rfl]
  rw [List.zip_append hlen, List.filterMap_append]
  cases b <;> rfl

/-- The vendor line loop computes, from any well-formed state, the emission of
the state adjusted by the leading non-module group, followed by the spec-side
block emission of the lines. -/
theorem runVendorLines_spec (n : Nat) :
    ∀ (lines : List String) (st st' : VendorState), lines.length ≤ n →
      st.modules.length = st.flags.length →
      runVendorLines st lines = .ok st' →
      emitModules st' = emitModules ⟨st.modules,
          if (lines.takeWhile (fun l => !pyStartsWith l "# ")).any (fun l => !pyStartsWith l "#")
          then setLastTrue st.flags else st.flags⟩ ++ blocksOut lines := by
  induction n using Nat.strong_induction_on with
  | _ n ih =>
    intro lines st st' hlen hpar hrun
    have hsplit : lines = lines.takeWhile (fun l => !pyStartsWith l "# ")
        ++ lines.dropWhile (fun l => !pyStartsWith l "# ") :=
      (List.takeWhile_append_dropWhile _ _).symm
    set g0 := lines.takeWhile (fun l => !pyStartsWith l "# ") with hg0
    set rest := lines.dropWhile (fun l => !pyStartsWith l "# ") with hrest
    have hg0all : ∀ l ∈ g0, pyStartsWith l "# " = false := by
      intro l hl
      have := List.mem_takeWhile_imp (hg0 ▸ hl)
      simpa using this
    rw [hsplit, runVendorLines_append] at hrun
    cases hr0 : runVendorLines st g0 with
    | error e =>
      rw [hr0] at hrun
      exact absurd hrun (by simp)
    | ok st1 =>
      rw [hr0] at hrun
      obtain ⟨ms1, fs1⟩ := st1
      obtain ⟨hm1, hf1, hne1⟩ := runVendorLines_group g0 st _ hg0all hr0
      simp only at hm1 hf1
      have hlen1 : ms1.length = fs1.length := by
        rw [hm1, hf1]
        by_cases hany : g0.any (fun l => !pyStartsWith l "#") = true
        · rw [if_pos hany]
          have hmne : st.modules ≠ [] := hne1 hany
          have hfne : st.flags ≠ [] := by
            intro h0
            rw [h0, List.length_nil, List.length_eq_zero] at hpar
            exact hmne hpar
          unfold setLastTrue
          rw [List.length_append, List.length_dropLast, List.length_cons, List.length_nil]
          have : 1 ≤ st.flags.length := by
            cases hf : st.flags with
            | nil => exact absurd hf hfne
            | cons a t => simp
          omega
        · rw [if_neg hany]
          exact hpar
      cases hrest_shape : rest with
      | nil =>
        rw [hrest_shape] at hrun
        injection hrun with h'
        have hblocks : blocksOut lines = [] := by
          unfold blocksOut
          rw [hsplit, hrest_shape, List.append_nil,
            show moduleBlocks g0 = moduleBlocks ([] : List String) from by
              simpa using moduleBlocks_append_other g0 [] hg0all]
          rfl
        rw [hblocks, List.append_nil, ← h']
        rw [hm1, hf1]
      | cons l ls =>
        have hlmod : pyStartsWith l "# " = true := by
          have hpred := dropWhile_head_false (fun x => !pyStartsWith x "# ") lines l ls
            (hrest ▸ hrest_shape)
          simpa using hpred
        rw [hrest_shape] at hrun
        dsimp only at hrun
        rw [show runVendorLines ⟨ms1, fs1⟩ (l :: ls) = (match vendorStep ⟨ms1, fs1⟩ l with
          | .ok st2 => runVendorLines st2 ls
          | .error e => .error e) from rfl] at hrun
        cases hpm : parseModuleLine l with
        | error e =>
          have hstep : vendorStep ⟨ms1, fs1⟩ l = .error e := by
            simp [vendorStep, hlmod, hpm]
          rw [hstep] at hrun
          exact absurd hrun (by simp)
        | ok m =>
          have hstep : vendorStep ⟨ms1, fs1⟩ l = .ok ⟨ms1 ++ [m], fs1 ++ [false]⟩ := by
            simp [vendorStep, hlmod, hpm]
          rw [hstep] at hrun
          have hlines_len : lines.length = g0.length + (ls.length + 1) := by
            conv_lhs => rw [hsplit, hrest_shape]
            simp
          have hlt : ls.length < n := by omega
          have hpar2 : (ms1 ++ [m]).length = (fs1 ++ [false]).length := by
            simp [hlen1]
          have hmain := ih ls.length hlt ls ⟨ms1 ++ [m], fs1 ++ [false]⟩ st'
            (Nat.le_refl _) hpar2 hrun
          set g1 := ls.takeWhile (fun x => !pyStartsWith x "# ") with hg1
          set rest1 := ls.dropWhile (fun x => !pyStartsWith x "# ") with hrest1
          have hg1all : ∀ x ∈ g1, pyStartsWith x "# " = false := by
            intro x hx
            have := List.mem_takeWhile_imp (hg1 ▸ hx)
            simpa using this
          simp only at hmain
          have hflags : (if g1.any (fun x => !pyStartsWith x "#") then
              setLastTrue (fs1 ++ [false]) else fs1 ++ [false])
              = fs1 ++ [g1.any (fun x => !pyStartsWith x "#")] := by
            cases hb : g1.any (fun x => !pyStartsWith x "#") with
            | true =>
              rw [if_pos rfl]
              unfold setLastTrue
              rw [List.dropLast_concat]
            | false => rw [if_neg (by simp)]
          rw [hflags, emitModules_append ms1 fs1 m _ hlen1] at hmain
          have hblockslines : blocksOut lines =
              (if g1.any (fun x => !pyStartsWith x "#") then [m] else []) ++ blocksOut rest1 := by
            unfold blocksOut
            conv_lhs => rw [hsplit, hrest_shape]
            rw [moduleBlocks_append_other g0 _ hg0all, moduleBlocks_cons_module l ls hlmod,
              List.filterMap_cons]
            simp only [hpm, ← hg1, ← hrest1]
            cases hb : g1.any (fun x => !pyStartsWith x "#") with
            | true => rw [if_pos rfl]; rfl
            | false => rw [if_neg (by simp)]; rfl
          have hblocksls : blocksOut ls = blocksOut rest1 := by
            unfold blocksOut
            rw [show ls = g1 ++ rest1 from (List.takeWhile_append_dropWhile _ _).symm,
              moduleBlocks_append_other g1 rest1 hg1all]
          rw [hmain, hblocksls, hblockslines, hm1, hf1, List.append_assoc]

/-- C7: the vendor parser ignores `##` marker lines; raises `UnexpectedFormat`
for any other `#`-prefixed line that is not a `# `-module line; raises
`UnexpectedFormat` for a module line whose fields do not match one of the five
documented shapes; raises `UnexpectedFormat` for a package line before any
module line; and a successful parse emits exactly the modules that have at
least one package line, in order (the spec-side `blocksOut`). -/
theorem C7_parse_vendor :
    (∀ (st : VendorState) (line : String), pyStartsWith line "##" = true →
      vendorStep st line = .ok st)
  ∧ (∀ (st : VendorState) (line : String), pyStartsWith line "#" = true →
      pyStartsWith line "# " = false → pyStartsWith line "##" = false →
      vendorStep st line = .error (.unexpectedFormat line))
  ∧ (∀ (st : VendorState) (line : String), pyStartsWith line "# " = true →
      matchesDocumentedShape line = false →
      vendorStep st line = .error (.unexpectedModuleLineFormat line))
  ∧ (∀ (st : VendorState) (line : String), pyStartsWith line "#" = false →
      st.modules = [] → vendorStep st line = .error (.packageHasNoParentModule line))
  ∧ (∀ (lines : List String) (ms : List ParsedModule),
      parseVendorLines lines = .ok ms → ms = blocksOut lines) := by
  refine ⟨?_, ?_, ?_, ?_, ?_⟩
  · intro st line h
    obtain ⟨h1, h2⟩ := pyStartsWith_of_marker line h
    simp [vendorStep, h1, h2, h]
  · intro st line h1 h2 h3
    simp [vendorStep, h1, h2, h3]
  · intro st line h1 h2
    simp [vendorStep, h1, (parseModuleLine_shape line).1 h2]
  · intro st line h1 h2
    have hmod : pyStartsWith line "# " = false := by
      cases hm : pyStartsWith line "# " with
      | false => rfl
      | true =>
        exfalso
        unfold pyStartsWith at hm h1
        rw [List.isPrefixOf_iff_prefix] at hm
        rw [show ("#".toList) = ['#'] from rfl] at h1
        rw [show ("# ".toList) = ['#', ' '] from rfl] at hm
        obtain ⟨t, ht⟩ := hm
        rw [← ht] at h1
        simp [List.isPrefixOf_cons₂] at h1
    simp [vendorStep, hmod, h1, h2, List.isEmpty_iff]
  · intro lines ms h
    unfold parseVendorLines at h
    cases hr : runVendorLines ⟨[], []⟩ lines with
    | error e => rw [hr] at h; exact absurd h (by simp)
    | ok st =>
      rw [hr] at h
      injection h with h'
      have := runVendorLines_spec lines.length lines ⟨[], []⟩ st (Nat.le_refl _) rfl hr
      rw [← h', this]
      show emitModules ⟨[], _⟩ ++ blocksOut lines = blocksOut lines
      rw [show emitModules ⟨[], if (lines.takeWhile (fun l => !pyStartsWith l "# ")).any
          (fun l => !pyStartsWith l "#") then setLastTrue [] else []⟩ = [] from by
        unfold emitModules
        cases (lines.takeWhile (fun l => !pyStartsWith l "# ")).any
          (fun l => !pyStartsWith l "#") <;> rfl]
      rfl

/-- C7 witness: concrete lines for each behavior, and a two-module manifest
where only the module with a package line is emitted, matching the spec-side
block emission. -/
theorem C7_parse_vendor_witness :
    vendorStep ⟨[], []⟩ "## explicit" = .ok ⟨[], []⟩ ∧
    vendorStep ⟨[], []⟩ "#bad" = .error (.unexpectedFormat "#bad") ∧
    vendorStep ⟨[], []⟩ "# a b c" = .error (.unexpectedModuleLineFormat "# a b c") ∧
    vendorStep ⟨[], []⟩ "pkg/line" = .error (.packageHasNoParentModule "pkg/line") ∧
    parseVendorLines ["# example.com/a v1.0.0", "example.com/a/pkg", "# example.com/b v2.0.0"]
      = .ok (blocksOut ["# example.com/a v1.0.0", "example.com/a/pkg", "# example.com/b v2.0.0"]) := by
  refine ⟨C7_parse_vendor.1 ⟨[], []⟩ "## explicit" (by decide),
    C7_parse_vendor.2.1 ⟨[], []⟩ "#bad" (by decide) (by decide) (by decide),
    C7_parse_vendor.2.2.1 ⟨[], []⟩ "# a b c" (by decide) (by decide),
    C7_parse_vendor.2.2.2.1 ⟨[], []⟩ "pkg/line" (by decide) rfl, ?_⟩
  have h := C7_parse_vendor.2.2.2.2
    ["# example.com/a v1.0.0", "example.com/a/pkg", "# example.com/b v2.0.0"]
    [ParsedModule.mk "example.com/a" (some "v1.0.0") false none] rfl
  rw [← h]
  rfl

end Gomod
